import Mathlib

/-!
# Verification of the smart-elevator concurrency core

This file gives a shallow embedding of `smart_elevator_testCode.cpp`: the
`Building` request queue (`addRequest`, `stopAcceptingRequests`,
`waitForRequest`), the `Elevator` worker loop (`run`, `moveTo`, `process`,
`stop`), and an interleaving small-step semantics for the whole system,
together with theorems about the queue/shutdown protocol and the movement
arithmetic.

Concurrency is modelled by an explicit labelled transition function
`execLabel` on a global state `Sys`; a schedule is a list of labels and
`execTrace` runs it.  Each label is one atomic action of the C++ program
(one critical section of the queue mutex, one read of a worker's `running`
flag, one completed `process` call).
-/

set_option autoImplicit false

namespace SmartElevator

/-- Request record, from `struct Request`: source floor, destination floor,
and the submission timestamp (modelled as a natural number). -/
structure Request where
  sourceFloor : Int
  destFloor : Int
  timestamp : Nat
deriving DecidableEq

/-- Embedding of `Building::waitForRequest` as a function of the queue
contents and the `acceptingRequests` flag.  The C++ code waits on the
condition variable until `!requestQ.empty() || !acceptingRequests`; a
result of `none` means the predicate is false and the caller stays
blocked.  Once the predicate holds, a non-empty queue wins: the head is
popped and returned; only an empty queue with the flag cleared yields
`std::nullopt` (the shutdown signal), encoded as `some (none, q)`. -/
def waitForRequest (q : List Request) (accepting : Bool) :
    Option (Option Request × List Request) :=
  if q.isEmpty && accepting then
    none
  else
    match q with
    | r :: rest => some (some r, rest)
    | [] => some (none, [])

/-- Program counter of one elevator worker inside `Elevator::run`:
at the top of the `while (running)` loop, blocked in
`building->waitForRequest()`, busy inside `process(*req)`, or exited. -/
inductive Phase where
  | loopTop : Phase
  | waiting : Phase
  | processing : Request → Phase
  | done : Phase
deriving DecidableEq

/-- Per-worker state: `currentFloor` and the `running` flag of `Elevator`,
plus the worker's position in its `run` loop. -/
structure WorkerState where
  currentFloor : Int
  running : Bool
  phase : Phase
deriving DecidableEq

/-- Fuel-indexed embedding of the loop body of `Elevator::moveTo`:
`while (currentFloor != target) { currentFloor += (target > currentFloor) ? 1 : -1; log(...); }`.
Returns the final floor together with the list of floors logged by the
"Passing floor" events, one per step.  `moveTo` supplies fuel
`(target - current).natAbs`, which `moveToAux_fst` proves sufficient. -/
def moveToAux : Nat → Int → Int → Int × List Int
  | 0, c, _ => (c, [])
  | n + 1, c, t =>
    if c = t then (c, [])
    else
      ((moveToAux n (if t > c then c + 1 else c - 1) t).1,
       (if t > c then c + 1 else c - 1) :: (moveToAux n (if t > c then c + 1 else c - 1) t).2)

/-- Embedding of `Elevator::moveTo`: final floor and logged floor sequence. -/
def moveTo (c t : Int) : Int × List Int :=
  moveToAux (t - c).natAbs c t

/-- Floor reached by `Elevator::process(r)` starting from floor `c`:
`moveTo(r.sourceFloor)` followed by `moveTo(r.destFloor)`. -/
def processFloor (c : Int) (r : Request) : Int :=
  (moveTo (moveTo c r.sourceFloor).1 r.destFloor).1

/-- Global state of the simulation: the `Building` fields `requestQ` and
`acceptingRequests`, the pool of workers, a ghost log `submitted` of every
request ever passed to `addRequest`, and the log `completed` of requests
whose `process` call finished (the "Request time" event). -/
structure Sys where
  requestQ : List Request
  acceptingRequests : Bool
  workers : List WorkerState
  submitted : List Request
  completed : List Request
deriving DecidableEq

/-- Atomic actions of the program.  `addRequest` and `stopAccepting` are the
producer-side critical sections of `Building`; `setRunningFalse i` is the
first statement of `Elevator::stop` (`running = false`); `checkRunning i`
is worker `i` evaluating the `while (running)` condition; `wait i` is one
successful return from `waitForRequest` together with the `if (!req)`
branch; `finish i` is worker `i` completing `process(*req)`.  A call to
`Elevator::stop` corresponds to `setRunningFalse i` followed by
`stopAccepting`, after which the stopping context joins worker `i`
(possible only once worker `i` reaches `Phase.done`). -/
inductive Label where
  | addRequest : Request → Label
  | stopAccepting : Label
  | setRunningFalse : Nat → Label
  | checkRunning : Nat → Label
  | wait : Nat → Label
  | finish : Nat → Label
deriving DecidableEq

/-- Projection used for the multiset of requests currently being processed:
a worker holds a request exactly while it is in `Phase.processing`. -/
def filterProc (w : WorkerState) : Option Request :=
  match w.phase with
  | Phase.processing r => some r
  | _ => none

/-- Requests currently held by some worker (dequeued but not yet completed). -/
def procList (s : Sys) : List Request :=
  s.workers.filterMap filterProc

/-- Conservation predicate: the submitted requests are exactly the completed
ones, the ones being processed, and the queued ones, up to permutation. -/
def Conserved (s : Sys) : Prop :=
  s.submitted.Perm (s.completed ++ (procList s ++ s.requestQ))

/-- One atomic step of the system.  `none` means the label is not enabled in
this state (the worker is blocked, or the program counter does not match).
`addRequest` appends unconditionally, exactly as `Building::addRequest`
pushes without inspecting `acceptingRequests`. -/
def execLabel (s : Sys) : Label → Option Sys
  | Label.addRequest r =>
    some { s with requestQ := s.requestQ ++ [r], submitted := s.submitted ++ [r] }
  | Label.stopAccepting =>
    some { s with acceptingRequests := false }
  | Label.setRunningFalse i =>
    match s.workers[i]? with
    | some w => some { s with workers := s.workers.set i { w with running := false } }
    | none => none
  | Label.checkRunning i =>
    match s.workers[i]? with
    | some w =>
      if w.phase = Phase.loopTop then
        some { s with workers :=
          s.workers.set i { w with phase := if w.running then Phase.waiting else Phase.done } }
      else none
    | none => none
  | Label.wait i =>
    match s.workers[i]? with
    | some w =>
      if w.phase = Phase.waiting then
        match waitForRequest s.requestQ s.acceptingRequests with
        | none => none
        | some (some r, rest) =>
          some { s with requestQ := rest,
                        workers := s.workers.set i { w with phase := Phase.processing r } }
        | some (none, rest) =>
          some { s with requestQ := rest,
                        workers := s.workers.set i { w with phase := Phase.done } }
      else none
    | none => none
  | Label.finish i =>
    match s.workers[i]? with
    | some w =>
      match w.phase with
      | Phase.processing r =>
        let w' : WorkerState :=
          { w with phase := Phase.loopTop, currentFloor := processFloor w.currentFloor r }
        some { s with workers := s.workers.set i w', completed := s.completed ++ [r] }
      | _ => none
    | none => none

/-- Run a schedule of atomic steps; `none` if some step is not enabled. -/
def execTrace (s : Sys) : List Label → Option Sys
  | [] => some s
  | l :: ls =>
    match execLabel s l with
    | some s' => execTrace s' ls
    | none => none

/-- A freshly constructed `Elevator`: floor 1, `running = true`, at the top
of its loop. -/
def initWorker : WorkerState :=
  { currentFloor := 1, running := true, phase := Phase.loopTop }

/-- A freshly constructed `Building` with `n` started elevators. -/
def initSys (n : Nat) : Sys :=
  { requestQ := [], acceptingRequests := true,
    workers := List.replicate n initWorker, submitted := [], completed := [] }

/-- Concrete request floor 1 to floor 2. -/
def rA : Request := { sourceFloor := 1, destFloor := 2, timestamp := 0 }

/-- Concrete request floor 2 to floor 3. -/
def rB : Request := { sourceFloor := 2, destFloor := 3, timestamp := 1 }

/-- Schedule refuting the no-loss half of the queue contract: two requests
are submitted, the single worker dequeues the first, `stop` clears its
`running` flag (and closes the queue) while the second request is still
queued, and after finishing the first request the worker exits at the
`while (running)` check. -/
def lossTrace : List Label :=
  [Label.addRequest rA, Label.addRequest rB, Label.checkRunning 0, Label.wait 0,
   Label.stopAccepting, Label.setRunningFalse 0, Label.finish 0, Label.checkRunning 0]

/-- Terminal state of `lossTrace`: the worker is done, `rB` is still queued
and was never completed. -/
def lossEnd : Sys :=
  { requestQ := [rB], acceptingRequests := false,
    workers := [{ currentFloor := 2, running := false, phase := Phase.done }],
    submitted := [rA, rB], completed := [rA] }

/-- Concrete request floor 1 to floor 2, used by the shutdown-drain schedule. -/
def rC : Request := { sourceFloor := 1, destFloor := 2, timestamp := 10 }

/-- Concrete request floor 4 to floor 6, used by the shutdown-drain schedule. -/
def rD : Request := { sourceFloor := 4, destFloor := 6, timestamp := 11 }

/-- Prefix of the shutdown-drain schedule: two requests submitted, the single
worker is busy with the first, the second is still queued. -/
def drainPre : List Label :=
  [Label.addRequest rC, Label.addRequest rD, Label.checkRunning 0, Label.wait 0]

/-- State after `drainPre`: `rD` queued, worker busy with `rC`. -/
def drainMid : Sys :=
  { requestQ := [rD], acceptingRequests := true,
    workers := [{ currentFloor := 1, running := true, phase := Phase.processing rC }],
    submitted := [rC, rD], completed := [] }

/-- Rest of the shutdown-drain schedule: `stopAcceptingRequests` runs while
`rD` is queued (K = 1), then `Elevator::stop` clears the worker's `running`
flag; the worker finishes `rC` and exits at the `while (running)` check. -/
def drainPost : List Label :=
  [Label.stopAccepting, Label.setRunningFalse 0, Label.finish 0, Label.checkRunning 0]

/-- Terminal state of the shutdown-drain schedule: pool stopped, `rD` never
processed. -/
def drainEnd : Sys :=
  { requestQ := [rD], acceptingRequests := false,
    workers := [{ currentFloor := 2, running := false, phase := Phase.done }],
    submitted := [rC, rD], completed := [rC] }

/-- Concrete request floor 3 to floor 5, submitted after shutdown. -/
def rE : Request := { sourceFloor := 3, destFloor := 5, timestamp := 7 }

/-- State after `stopAcceptingRequests` followed by `addRequest rE`: the
request submitted after shutdown sits in the queue. -/
def lateMid : Sys :=
  { requestQ := [rE], acceptingRequests := false,
    workers := [initWorker], submitted := [rE], completed := [] }

/-- State after the worker dequeues the late request: it is being processed
even though it was submitted after shutdown. -/
def lateEnd : Sys :=
  { requestQ := [], acceptingRequests := false,
    workers := [{ currentFloor := 1, running := true, phase := Phase.processing rE }],
    submitted := [rE], completed := [] }

/-- Concrete request floor 2 to floor 9. -/
def rF : Request := { sourceFloor := 2, destFloor := 9, timestamp := 3 }

/-- Schedule on which the worker exits its loop without ever calling
`waitForRequest`: `stop` clears `running` while a request is queued and the
queue is still accepting. -/
def flagExitTrace : List Label :=
  [Label.addRequest rF, Label.setRunningFalse 0, Label.checkRunning 0]

/-- Terminal state of `flagExitTrace`: worker done, queue still holds `rF`,
`acceptingRequests` still true. -/
def flagExitEnd : Sys :=
  { requestQ := [rF], acceptingRequests := true,
    workers := [{ currentFloor := 1, running := false, phase := Phase.done }],
    submitted := [rF], completed := [] }

/-- Concrete request floor 7 to floor 8. -/
def rG : Request := { sourceFloor := 7, destFloor := 8, timestamp := 9 }

/-- Concrete state with the flag already cleared, used to witness flag
monotonicity. -/
def monoStart : Sys :=
  { requestQ := [], acceptingRequests := false,
    workers := [initWorker], submitted := [], completed := [] }

/-- State reached from `monoStart` by `addRequest rG`. -/
def monoEnd : Sys :=
  { requestQ := [rG], acceptingRequests := false,
    workers := [initWorker], submitted := [rG], completed := [] }

/-- Concrete state with one waiting worker, empty closed queue: the worker's
next `wait` step observes the shutdown signal. -/
def shutdownWaitStart : Sys :=
  { requestQ := [], acceptingRequests := false,
    workers := [{ currentFloor := 1, running := true, phase := Phase.waiting }],
    submitted := [], completed := [] }

/-- State reached from `shutdownWaitStart` by the worker's `wait` step. -/
def shutdownWaitEnd : Sys :=
  { requestQ := [], acceptingRequests := false,
    workers := [{ currentFloor := 1, running := true, phase := Phase.done }],
    submitted := [], completed := [] }

/-- Concrete two-worker state, both waiting, used to witness that `stop` on
worker 0 signals the whole pool. -/
def poolStart : Sys :=
  { requestQ := [], acceptingRequests := true,
    workers := [{ currentFloor := 1, running := true, phase := Phase.waiting },
                { currentFloor := 1, running := true, phase := Phase.waiting }],
    submitted := [], completed := [] }

/-- State reached from `poolStart` by the first two actions of
`elevators[0]->stop()`. -/
def poolStopped : Sys :=
  { requestQ := [], acceptingRequests := false,
    workers := [{ currentFloor := 1, running := false, phase := Phase.waiting },
                { currentFloor := 1, running := true, phase := Phase.waiting }],
    submitted := [], completed := [] }

/-- State whose single worker has dequeued `rA`, used to witness the
conservation theorem. -/
def consWitEnd : Sys :=
  { requestQ := [], acceptingRequests := true,
    workers := [{ currentFloor := 1, running := true, phase := Phase.processing rA }],
    submitted := [rA], completed := [] }

/-- The processing projection only looks at the phase field. -/
theorem filterProc_phase_eq (w w' : WorkerState) (h : w.phase = w'.phase) :
    filterProc w = filterProc w' := by
  unfold filterProc
  rw [h]

/-- Updating one list entry to an element with the same projection leaves the
`filterMap` unchanged. -/
theorem filterMap_set_eq {α β : Type} (g : α → Option β) :
    ∀ (l : List α) (i : Nat) (a w : α), l[i]? = some w → g a = g w →
      (l.set i a).filterMap g = l.filterMap g
  | [], _, _, _, h, _ => by simp at h
  | x :: tl, 0, a, w, h, hg => by
    simp only [List.getElem?_cons_zero, Option.some.injEq] at h
    subst h
    cases hx : g x <;> simp [List.filterMap_cons, hg, hx]
  | x :: tl, i + 1, a, w, h, hg => by
    simp only [List.getElem?_cons_succ] at h
    cases hx : g x <;>
      simp [List.filterMap_cons, hx, filterMap_set_eq g tl i a w h hg]

/-- Updating an entry whose projection is `none` to one with projection
`some b` adds `b` to the `filterMap`, up to permutation. -/
theorem filterMap_set_acquire {α β : Type} (g : α → Option β) :
    ∀ (l : List α) (i : Nat) (a w : α) (b : β), l[i]? = some w → g w = none → g a = some b →
      ((l.set i a).filterMap g).Perm (b :: l.filterMap g)
  | [], _, _, _, _, h, _, _ => by simp at h
  | x :: tl, 0, a, w, b, h, hw, ha => by
    simp only [List.getElem?_cons_zero, Option.some.injEq] at h
    subst h
    simp [List.filterMap_cons, hw, ha]
  | x :: tl, i + 1, a, w, b, h, hw, ha => by
    simp only [List.getElem?_cons_succ] at h
    cases hx : g x with
    | none =>
      simpa [List.filterMap_cons, hx] using filterMap_set_acquire g tl i a w b h hw ha
    | some c =>
      simp only [List.set_cons_succ, List.filterMap_cons, hx]
      exact ((filterMap_set_acquire g tl i a w b h hw ha).cons c).trans
        (List.Perm.swap b c (tl.filterMap g))

/-- Updating an entry whose projection is `some b` to one with projection
`none` removes `b` from the `filterMap`, up to permutation. -/
theorem filterMap_set_release {α β : Type} (g : α → Option β) :
    ∀ (l : List α) (i : Nat) (a w : α) (b : β), l[i]? = some w → g w = some b → g a = none →
      (l.filterMap g).Perm (b :: (l.set i a).filterMap g)
  | [], _, _, _, _, h, _, _ => by simp at h
  | x :: tl, 0, a, w, b, h, hw, ha => by
    simp only [List.getElem?_cons_zero, Option.some.injEq] at h
    subst h
    simp [List.filterMap_cons, hw, ha]
  | x :: tl, i + 1, a, w, b, h, hw, ha => by
    simp only [List.getElem?_cons_succ] at h
    cases hx : g x with
    | none =>
      simpa [List.filterMap_cons, hx] using filterMap_set_release g tl i a w b h hw ha
    | some c =>
      simp only [List.set_cons_succ, List.filterMap_cons, hx]
      exact ((filterMap_set_release g tl i a w b h hw ha).cons c).trans
        (List.Perm.swap b c _)

/-- With fuel at least the distance, the `moveTo` loop reaches the target. -/
theorem moveToAux_fst : ∀ (n : Nat) (c t : Int), (t - c).natAbs ≤ n → (moveToAux n c t).1 = t
  | 0, c, t, h => by
    simp only [moveToAux]
    omega
  | n + 1, c, t, h => by
    by_cases hc : c = t
    · simp [moveToAux, hc]
    · simp only [moveToAux, if_neg hc]
      exact moveToAux_fst n _ t (by split <;> omega)

/-- Each return of `moveTo` ends exactly at the target floor. -/
theorem moveTo_fst (c t : Int) : (moveTo c t).1 = t :=
  moveToAux_fst _ c t (Nat.le_refl _)

/-- The `moveTo` loop body is a no-op when already at the target. -/
theorem moveTo_self (c : Int) : moveTo c c = (c, []) := by
  unfold moveTo
  rw [sub_self]
  rfl

/-- Every logged floor is one step from its predecessor, in the direction of
the comparison `target > current` performed by the loop body. -/
theorem moveToAux_chain : ∀ (n : Nat) (c t : Int),
    List.Chain (fun a b => b = if t > a then a + 1 else a - 1) c (moveToAux n c t).2
  | 0, _, _ => List.Chain.nil
  | n + 1, c, t => by
    by_cases hc : c = t
    · simp only [moveToAux, if_pos hc]
      exact List.Chain.nil
    · simp only [moveToAux, if_neg hc]
      exact List.Chain.cons rfl (moveToAux_chain n _ t)

/-- No worker of a fresh pool is processing anything. -/
theorem procList_initSys (n : Nat) : procList (initSys n) = [] := by
  unfold procList initSys
  induction n with
  | zero => rfl
  | succ n ih => simp [List.replicate_succ, List.filterMap_cons, filterProc, initWorker, ih]

/-- Every enabled atomic step preserves the conservation invariant:
`addRequest` adds the request to both sides, `wait` moves the queue head
into a worker, `finish` moves a worker's request into the completed log,
and the remaining steps do not touch any request. -/
theorem conservation_step (s : Sys) (l : Label) (s' : Sys)
    (h : execLabel s l = some s') (hc : Conserved s) : Conserved s' := by
  cases l with
  | addRequest r =>
    simp only [execLabel, Option.some.injEq] at h
    subst h
    unfold Conserved procList at hc ⊢
    simpa [List.append_assoc] using hc.append_right [r]
  | stopAccepting =>
    simp only [execLabel, Option.some.injEq] at h
    subst h
    unfold Conserved procList at hc ⊢
    simpa using hc
  | setRunningFalse i =>
    cases hw : s.workers[i]? with
    | none => simp [execLabel, hw] at h
    | some w =>
      simp only [execLabel, hw, Option.some.injEq] at h
      subst h
      unfold Conserved procList at hc ⊢
      dsimp only
      rw [filterMap_set_eq filterProc s.workers i { w with running := false } w hw
        (filterProc_phase_eq _ _ rfl)]
      exact hc
  | checkRunning i =>
    cases hw : s.workers[i]? with
    | none => simp [execLabel, hw] at h
    | some w =>
      by_cases hp : w.phase = Phase.loopTop
      · simp only [execLabel, hw, hp, if_pos, Option.some.injEq] at h
        subst h
        unfold Conserved procList at hc ⊢
        dsimp only
        have hg : filterProc { w with phase := if w.running then Phase.waiting else Phase.done }
            = filterProc w := by
          cases w.running <;> simp [filterProc, hp]
        rw [filterMap_set_eq filterProc s.workers i _ w hw hg]
        exact hc
      · simp [execLabel, hw, hp] at h
  | wait i =>
    cases hw : s.workers[i]? with
    | none => simp [execLabel, hw] at h
    | some w =>
      by_cases hp : w.phase = Phase.waiting
      · cases hq : s.requestQ with
        | nil =>
          cases ha : s.acceptingRequests with
          | true => simp [execLabel, hw, hp, hq, ha, waitForRequest] at h
          | false =>
            simp [execLabel, hw, hp, hq, ha, waitForRequest] at h
            subst h
            unfold Conserved procList at hc ⊢
            dsimp only
            have hg : filterProc { w with phase := Phase.done } = filterProc w := by
              simp [filterProc, hp]
            rw [filterMap_set_eq filterProc s.workers i { w with phase := Phase.done } w hw hg]
            rw [hq] at hc
            exact hc
        | cons r rest =>
          simp [execLabel, hw, hp, hq, waitForRequest] at h
          subst h
          unfold Conserved procList at hc ⊢
          dsimp only
          have hP : ((s.workers.set i { w with phase := Phase.processing r }).filterMap
              filterProc).Perm (r :: s.workers.filterMap filterProc) :=
            filterMap_set_acquire filterProc s.workers i _ w r hw (by simp [filterProc, hp])
              (by simp [filterProc])
          rw [hq] at hc
          have hmid : (s.workers.filterMap filterProc ++ (r :: rest)).Perm
              ((s.workers.set i { w with phase := Phase.processing r }).filterMap filterProc
                ++ rest) :=
            List.perm_middle.trans (hP.append_right rest).symm
          exact hc.trans (List.Perm.append_left s.completed hmid)
      · simp [execLabel, hw, hp] at h
  | finish i =>
    cases hw : s.workers[i]? with
    | none => simp [execLabel, hw] at h
    | some w =>
      cases hp : w.phase with
      | loopTop => simp [execLabel, hw, hp] at h
      | waiting => simp [execLabel, hw, hp] at h
      | done => simp [execLabel, hw, hp] at h
      | processing r =>
        simp only [execLabel, hw, hp, Option.some.injEq] at h
        subst h
        unfold Conserved procList at hc ⊢
        dsimp only
        have hP : (s.workers.filterMap filterProc).Perm
            (r :: (s.workers.set i
              { w with phase := Phase.loopTop,
                       currentFloor := processFloor w.currentFloor r }).filterMap filterProc) :=
          filterMap_set_release filterProc s.workers i _ w r hw (by simp [filterProc, hp])
            (by simp [filterProc])
        have h1 : (s.completed ++ (s.workers.filterMap filterProc ++ s.requestQ)).Perm
            (s.completed ++ (r :: ((s.workers.set i
              { w with phase := Phase.loopTop,
                       currentFloor := processFloor w.currentFloor r }).filterMap filterProc
                ++ s.requestQ))) :=
          List.Perm.append_left s.completed (hP.append_right s.requestQ)
        rw [← List.append_cons]
        exact hc.trans h1

/-- Conservation holds along every schedule. -/
theorem conservation_trace : ∀ (ls : List Label) (s s' : Sys),
    execTrace s ls = some s' → Conserved s → Conserved s'
  | [], s, s', h, hc => by
    simp only [execTrace, Option.some.injEq] at h
    subst h
    exact hc
  | l :: ls, s, s', h, hc => by
    simp only [execTrace] at h
    cases he : execLabel s l with
    | none =>
      rw [he] at h
      exact Option.noConfusion h
    | some s1 =>
      rw [he] at h
      exact conservation_trace ls s1 s' h (conservation_step s l s1 he hc)

/-- No atomic step sets `acceptingRequests` back to true. -/
theorem accepting_step (s : Sys) (l : Label) (s' : Sys) (h : execLabel s l = some s')
    (ha : s.acceptingRequests = false) : s'.acceptingRequests = false := by
  cases l with
  | addRequest r =>
    simp only [execLabel, Option.some.injEq] at h
    subst h
    exact ha
  | stopAccepting =>
    simp only [execLabel, Option.some.injEq] at h
    subst h
    rfl
  | setRunningFalse i =>
    cases hw : s.workers[i]? with
    | none => simp [execLabel, hw] at h
    | some w =>
      simp [execLabel, hw] at h
      subst h
      exact ha
  | checkRunning i =>
    cases hw : s.workers[i]? with
    | none => simp [execLabel, hw] at h
    | some w =>
      by_cases hp : w.phase = Phase.loopTop
      · simp [execLabel, hw, hp] at h
        subst h
        exact ha
      · simp [execLabel, hw, hp] at h
  | wait i =>
    cases hw : s.workers[i]? with
    | none => simp [execLabel, hw] at h
    | some w =>
      by_cases hp : w.phase = Phase.waiting
      · cases hq : s.requestQ with
        | nil =>
          simp [execLabel, hw, hp, hq, ha, waitForRequest] at h
          subst h
          rfl
        | cons r rest =>
          simp [execLabel, hw, hp, hq, waitForRequest] at h
          subst h
          exact ha
      · simp [execLabel, hw, hp] at h
  | finish i =>
    cases hw : s.workers[i]? with
    | none => simp [execLabel, hw] at h
    | some w =>
      cases hp : w.phase with
      | loopTop => simp [execLabel, hw, hp] at h
      | waiting => simp [execLabel, hw, hp] at h
      | done => simp [execLabel, hw, hp] at h
      | processing r =>
        simp [execLabel, hw, hp] at h
        subst h
        exact ha

/-- Once cleared, `acceptingRequests` stays cleared along every schedule. -/
theorem accepting_trace : ∀ (ls : List Label) (s s' : Sys),
    execTrace s ls = some s' → s.acceptingRequests = false → s'.acceptingRequests = false
  | [], s, s', h, ha => by
    simp only [execTrace, Option.some.injEq] at h
    subst h
    exact ha
  | l :: ls, s, s', h, ha => by
    simp only [execTrace] at h
    cases he : execLabel s l with
    | none =>
      rw [he] at h
      exact Option.noConfusion h
    | some s1 =>
      rw [he] at h
      exact accepting_trace ls s1 s' h (accepting_step s l s1 he ha)

/-- C5 (amended): receiving the shutdown signal from `waitForRequest` is
not the only way `Elevator::run` exits.  A worker's phase reaches
`Phase.done` in exactly two ways: through `waitForRequest` returning
`std::nullopt` — which requires the queue to be empty and
`acceptingRequests` false at that moment — or through reading
`running = false` at the `while (running)` check after `stop` cleared the
flag.  In particular a worker busy mid-process never exits directly: from
`Phase.processing` no single step reaches `Phase.done`, so a busy worker
always finishes its current request first. -/
theorem run_loop_exit_paths (s : Sys) (l : Label) (s' : Sys) (i : Nat) (w w' : WorkerState)
    (h : execLabel s l = some s') (hw : s.workers[i]? = some w)
    (hw' : s'.workers[i]? = some w') (hnd : w.phase ≠ Phase.done)
    (hd : w'.phase = Phase.done) :
    (l = Label.wait i ∧ s.requestQ = [] ∧ s.acceptingRequests = false) ∨
    (l = Label.checkRunning i ∧ w.running = false) := by
  cases l with
  | addRequest r =>
    simp only [execLabel, Option.some.injEq] at h
    subst h
    have hw2 : s.workers[i]? = some w' := hw'
    rw [hw] at hw2
    exact absurd ((Option.some.inj hw2) ▸ hd) hnd
  | stopAccepting =>
    simp only [execLabel, Option.some.injEq] at h
    subst h
    have hw2 : s.workers[i]? = some w' := hw'
    rw [hw] at hw2
    exact absurd ((Option.some.inj hw2) ▸ hd) hnd
  | setRunningFalse k =>
    cases hk : s.workers[k]? with
    | none => simp [execLabel, hk] at h
    | some wk =>
      simp [execLabel, hk] at h
      subst h
      by_cases hik : k = i
      · subst hik
        have hlen : k < s.workers.length := (List.getElem?_eq_some.mp hk).1
        have hw2 : (s.workers.set k { wk with running := false })[k]? =
            some { wk with running := false } := List.getElem?_set_self (by simpa using hlen)
        have hw3 : some w' = some { wk with running := false } := hw'.symm.trans hw2
        have hww : wk = w := Option.some.inj (hk.symm.trans hw)
        subst hww
        have : w'.phase = wk.phase := by rw [Option.some.inj hw3]
        exact absurd (this ▸ hd) hnd
      · have hw2 : s.workers[i]? = some w' := by
          have := hw'
          rwa [List.getElem?_set_ne hik] at this
        rw [hw] at hw2
        exact absurd ((Option.some.inj hw2) ▸ hd) hnd
  | checkRunning k =>
    cases hk : s.workers[k]? with
    | none => simp [execLabel, hk] at h
    | some wk =>
      by_cases hp : wk.phase = Phase.loopTop
      · simp [execLabel, hk, hp] at h
        subst h
        by_cases hik : k = i
        · subst hik
          have hlen : k < s.workers.length := (List.getElem?_eq_some.mp hk).1
          have hww : wk = w := Option.some.inj (hk.symm.trans hw)
          subst hww
          have hw2 : (s.workers.set k
              { wk with phase := if wk.running then Phase.waiting else Phase.done })[k]? =
              some { wk with phase := if wk.running then Phase.waiting else Phase.done } :=
            List.getElem?_set_self (by simpa using hlen)
          have hw3 : w' = { wk with phase := if wk.running then Phase.waiting else Phase.done } :=
            Option.some.inj (hw'.symm.trans hw2)
          cases hr : wk.running with
          | true =>
            rw [hw3] at hd
            simp [hr] at hd
          | false => exact Or.inr ⟨rfl, rfl⟩
        · have hw2 : s.workers[i]? = some w' := by
            have := hw'
            rwa [List.getElem?_set_ne hik] at this
          rw [hw] at hw2
          exact absurd ((Option.some.inj hw2) ▸ hd) hnd
      · simp [execLabel, hk, hp] at h
  | wait k =>
    cases hk : s.workers[k]? with
    | none => simp [execLabel, hk] at h
    | some wk =>
      by_cases hp : wk.phase = Phase.waiting
      · cases hq : s.requestQ with
        | nil =>
          cases ha : s.acceptingRequests with
          | true => simp [execLabel, hk, hp, hq, ha, waitForRequest] at h
          | false =>
            simp [execLabel, hk, hp, hq, ha, waitForRequest] at h
            subst h
            by_cases hik : k = i
            · subst hik
              exact Or.inl ⟨rfl, rfl, rfl⟩
            · have hw2 : s.workers[i]? = some w' := by
                have := hw'
                rwa [List.getElem?_set_ne hik] at this
              rw [hw] at hw2
              exact absurd ((Option.some.inj hw2) ▸ hd) hnd
        | cons r rest =>
          simp [execLabel, hk, hp, hq, waitForRequest] at h
          subst h
          by_cases hik : k = i
          · subst hik
            have hlen : k < s.workers.length := (List.getElem?_eq_some.mp hk).1
            have hw2 : (s.workers.set k { wk with phase := Phase.processing r })[k]? =
                some { wk with phase := Phase.processing r } :=
              List.getElem?_set_self (by simpa using hlen)
            have hw3 : w' = { wk with phase := Phase.processing r } :=
              Option.some.inj (hw'.symm.trans hw2)
            rw [hw3] at hd
            simp at hd
          · have hw2 : s.workers[i]? = some w' := by
              have := hw'
              rwa [List.getElem?_set_ne hik] at this
            rw [hw] at hw2
            exact absurd ((Option.some.inj hw2) ▸ hd) hnd
      · simp [execLabel, hk, hp] at h
  | finish k =>
    cases hk : s.workers[k]? with
    | none => simp [execLabel, hk] at h
    | some wk =>
      cases hp : wk.phase with
      | loopTop => simp [execLabel, hk, hp] at h
      | waiting => simp [execLabel, hk, hp] at h
      | done => simp [execLabel, hk, hp] at h
      | processing r =>
        simp [execLabel, hk, hp] at h
        subst h
        by_cases hik : k = i
        · subst hik
          have hlen : k < s.workers.length := (List.getElem?_eq_some.mp hk).1
          have hw3 :
              w' = { wk with phase := Phase.loopTop, currentFloor := processFloor wk.currentFloor r } :=
            Option.some.inj (hw'.symm.trans (List.getElem?_set_self (by simpa using hlen)))
          rw [hw3] at hd
          simp at hd
        · have hw2 : s.workers[i]? = some w' := by
            have := hw'
            rwa [List.getElem?_set_ne hik] at this
          rw [hw] at hw2
          exact absurd ((Option.some.inj hw2) ▸ hd) hnd

/-- C1: `Building::waitForRequest` blocks (has no result) exactly while the
queue is empty and `acceptingRequests` is still true.  Once runnable, a
non-empty queue wins even when `acceptingRequests` is already false: the
head element is atomically removed and returned; the shutdown signal
(`std::nullopt`) is returned only when the queue is empty and
`acceptingRequests` is false. -/
theorem waitForRequest_contract :
    (∀ (r : Request) (q : List Request) (a : Bool), waitForRequest (r :: q) a = some (some r, q)) ∧
    waitForRequest [] false = some (none, []) ∧
    waitForRequest [] true = none := by
  refine ⟨fun r q a => ?_, rfl, rfl⟩
  cases a <;> rfl

/-- C2 (counterexample): on the schedule `lossTrace`, two pairwise-distinct
requests are submitted and the pool terminates — every worker is done, and
a done worker has no enabled step, so no further `Completed` event can
ever be emitted — yet only one `Completed` event was logged: the second
request was dropped when `stop` cleared the worker's `running` flag. -/
theorem completed_events_lost :
    execTrace (initSys 1) lossTrace = some lossEnd ∧
    (∀ w ∈ lossEnd.workers, w.phase = Phase.done) ∧
    lossEnd.submitted.Nodup ∧
    ¬lossEnd.completed.length = lossEnd.submitted.length := by decide

/-- C2 (amended): along every schedule, the submitted requests are exactly
the completed requests, the requests currently held by a worker, and the
queued requests, up to permutation.  Hence no request is duplicated or
delivered to two workers and a request only disappears by completing; but
the pool can terminate with requests still queued, so exactly N
`Completed` events is not guaranteed. -/
theorem submitted_conserved (n : Nat) (ls : List Label) (s : Sys)
    (h : execTrace (initSys n) ls = some s) :
    s.submitted.Perm (s.completed ++ (procList s ++ s.requestQ)) := by
  have hinit : Conserved (initSys n) := by
    unfold Conserved
    rw [procList_initSys]
    exact List.Perm.nil
  exact conservation_trace ls (initSys n) s h hinit

/-- Witness for `submitted_conserved` at a concrete schedule: one request
submitted and dequeued by the single worker. -/
theorem submitted_conserved_witness :
    consWitEnd.submitted.Perm (consWitEnd.completed ++ (procList consWitEnd ++ consWitEnd.requestQ)) :=
  submitted_conserved 1 [Label.addRequest rA, Label.checkRunning 0, Label.wait 0] consWitEnd
    (by decide)

/-- C3: the code violates the drain guarantee.  On this schedule
`stopAcceptingRequests` runs while one request (`rD`) is still queued
(K = 1); the pool then fully stops — `Elevator::stop` clears the worker's
`running` flag, the worker finishes its current request and exits at the
`while (running)` check — and `rD` is never processed: it sits queued and
uncompleted in the terminal all-done state. -/
theorem shutdown_drops_queued_request :
    execTrace (initSys 1) drainPre = some drainMid ∧
    drainMid.requestQ = [rD] ∧
    execTrace drainMid drainPost = some drainEnd ∧
    (∀ w ∈ drainEnd.workers, w.phase = Phase.done) ∧
    rD ∈ drainEnd.submitted ∧ rD ∉ drainEnd.completed := by decide

/-- C4 (counterexample): after `stopAcceptingRequests` has run,
`addRequest rE` still appends the request to the queue, and the worker
subsequently dequeues it and starts processing it — a submission after
shutdown is silently queued and delivered, not a no-op or a rejection. -/
theorem late_submission_delivered :
    execTrace (initSys 1) [Label.stopAccepting, Label.addRequest rE] = some lateMid ∧
    lateMid.acceptingRequests = false ∧
    lateMid.requestQ = [rE] ∧
    execTrace lateMid [Label.checkRunning 0, Label.wait 0] = some lateEnd ∧
    lateEnd.workers.map WorkerState.phase = [Phase.processing rE] := by decide

/-- C4 (amended): `Building::addRequest` never inspects `acceptingRequests`;
in every state — including after `stopAcceptingRequests` — it
unconditionally appends the request to the tail of the queue, and such a
request can then be delivered to a worker like any other. -/
theorem addRequest_unconditional (s : Sys) (r : Request) :
    execLabel s (Label.addRequest r) =
      some { s with requestQ := s.requestQ ++ [r], submitted := s.submitted ++ [r] } := rfl

/-- C5 (counterexample): on `flagExitTrace` the single worker reaches
`Phase.done` — its `run` loop exits — although the schedule contains no
`wait` step at all, so the worker never received the shutdown signal from
`waitForRequest`: it exited because `stop` cleared its `running` flag,
with a request still queued and `acceptingRequests` still true. -/
theorem loop_exit_without_signal :
    execTrace (initSys 1) flagExitTrace = some flagExitEnd ∧
    flagExitEnd.workers.map WorkerState.phase = [Phase.done] ∧
    flagExitEnd.requestQ = [rF] ∧
    flagExitEnd.acceptingRequests = true ∧
    Label.wait 0 ∉ flagExitTrace := by decide

/-- Witness for `run_loop_exit_paths`: a waiting worker with an empty,
closed queue takes its `wait` step and exits through the shutdown-signal
path. -/
theorem run_loop_exit_paths_witness :
    (Label.wait 0 = Label.wait 0 ∧ shutdownWaitStart.requestQ = [] ∧
      shutdownWaitStart.acceptingRequests = false) ∨
    (Label.wait 0 = Label.checkRunning 0 ∧
      WorkerState.running { currentFloor := 1, running := true, phase := Phase.waiting } = false) :=
  run_loop_exit_paths shutdownWaitStart (Label.wait 0) shutdownWaitEnd 0
    { currentFloor := 1, running := true, phase := Phase.waiting }
    { currentFloor := 1, running := true, phase := Phase.done }
    (by decide) (by decide) (by decide) (by decide) (by decide)

/-- C6: the `acceptingRequests` transition is monotonic and one-way: from
any state in which the flag is false, no schedule of operations
(`addRequest`, `stopAcceptingRequests`, worker steps, `stop` actions) ever
makes it true again. -/
theorem acceptingRequests_monotone (ls : List Label) (s s' : Sys)
    (h : execTrace s ls = some s') (ha : s.acceptingRequests = false) :
    s'.acceptingRequests = false :=
  accepting_trace ls s s' h ha

/-- Witness for `acceptingRequests_monotone`: an `addRequest` step from a
closed state leaves the flag false. -/
theorem acceptingRequests_monotone_witness : monoEnd.acceptingRequests = false :=
  acceptingRequests_monotone [Label.addRequest rG] monoStart monoEnd (by decide) rfl

/-- C7: `Elevator::moveTo` steps `currentFloor` by exactly one floor per
iteration, in the direction of the comparison `target > current` (the sign
of target − current), logging one passing-floor event per step; it stops
exactly on reaching the target floor and is a no-op when already there.
Concretely, serving source 3 and destination 7 from floor 1 logs floors
2,3 then 4,5,6,7, strictly monotonically with no skips. -/
theorem moveTo_movement :
    (∀ c t : Int,
      (moveTo c t).1 = t ∧
      (c = t → moveTo c t = (c, [])) ∧
      List.Chain (fun a b => b = if t > a then a + 1 else a - 1) c (moveTo c t).2) ∧
    (moveTo 1 3).2 = [2, 3] ∧ (moveTo 3 7).2 = [4, 5, 6, 7] := by
  refine ⟨fun c t => ⟨moveTo_fst c t, fun hct => ?_, moveToAux_chain _ c t⟩, by decide, by decide⟩
  rw [← hct]
  exact moveTo_self c

/-- Witness for `moveTo_movement`: the no-op case at floor 5. -/
theorem moveTo_movement_witness : moveTo 5 5 = (5, []) :=
  (moveTo_movement.1 5 5).2.1 rfl

/-- C8: `stopAcceptingRequests` is idempotent: from every state, running it
twice produces exactly the same state — queue contents and
`acceptingRequests` flag included — as running it once. -/
theorem stopAccepting_idempotent (s : Sys) :
    execTrace s [Label.stopAccepting, Label.stopAccepting] =
      execTrace s [Label.stopAccepting] := rfl

/-- C9: the first two actions of `Elevator::stop` — clear this worker's
`running` flag, then call `stopAcceptingRequests` on the owning building —
close the shared queue pool-wide: `acceptingRequests` becomes false no
matter which worker was stopped, only that worker's own `running` flag
changes and the queue contents are untouched, and afterwards every waiting
worker in the pool (not just the stopped one) has its `wait` step enabled,
so the whole pool wakes; `stop` then blocks by joining, i.e. the stopping
context resumes only once this worker reaches `Phase.done`. -/
theorem stop_signals_pool (s : Sys) (i : Nat) (w : WorkerState)
    (hw : s.workers[i]? = some w) :
    execTrace s [Label.setRunningFalse i, Label.stopAccepting] =
      some { s with workers := s.workers.set i { w with running := false }, acceptingRequests := false } ∧
    (∀ (j : Nat) (w' : WorkerState),
      (s.workers.set i { w with running := false })[j]? = some w' →
      w'.phase = Phase.waiting →
      (execLabel { s with workers := s.workers.set i { w with running := false }, acceptingRequests := false }
        (Label.wait j)).isSome = true) := by
  constructor
  · simp [execTrace, execLabel, hw]
  · intro j w' hj hph
    cases hq : s.requestQ with
    | nil => simp [execLabel, hj, hph, waitForRequest, hq]
    | cons r rest => simp [execLabel, hj, hph, waitForRequest, hq]

/-- Witness for `stop_signals_pool`: stopping worker 0 of a two-worker pool
closes the queue for both workers. -/
theorem stop_signals_pool_witness :
    execTrace poolStart [Label.setRunningFalse 0, Label.stopAccepting] = some poolStopped :=
  (stop_signals_pool poolStart 0 { currentFloor := 1, running := true, phase := Phase.waiting }
    (by decide)).1.trans (by decide)

/-- C10: a completed request parks the elevator at its destination:
`process` started at any floor ends with `currentFloor` equal to the
request's `destFloor`, and every `moveTo` ends exactly at its target. -/
theorem process_parks_at_destination :
    (∀ (c : Int) (r : Request), processFloor c r = r.destFloor) ∧
    (∀ c t : Int, (moveTo c t).1 = t) :=
  ⟨fun _ r => moveTo_fst _ r.destFloor, fun c t => moveTo_fst c t⟩

end SmartElevator
